import Mathlib

/-!
Verification of the console/performance diagnostics aggregation model of the
ayotype repository, shallowly embedded from
src/claude-agent-runtime/utils/diagnostics.py (classes ConsoleDiagnostics and
PerformanceMonitor).  Components the spec documents but whose implementation is
not present in the source tree (diagnostic aggregator verdict, capped session
history, trend analyzer) are modelled from the spec and marked as such.

Python floats are embedded as rationals; Python strings as Lean strings, with
lowercasing and substring containment made explicit below.
-/

namespace AyoDiag

/-- Chars of `pat` occur verbatim at the head of `s` (helper for substring
containment, modelling Python's `pat in s` operator). -/
def leadMatch : List Char → List Char → Bool
  | [], _ => true
  | _ :: _, [] => false
  | p :: ps, c :: cs => (p = c) && leadMatch ps cs

/-- `pat` occurs contiguously somewhere in the char list (helper). -/
def subSearch (pat : List Char) : List Char → Bool
  | [] => leadMatch pat []
  | c :: t => leadMatch pat (c :: t) || subSearch pat t

/-- Models Python's substring test `pat in s`. -/
def containsStr (s pat : String) : Bool := subSearch pat.data s.data

/-- Models Python's `str.lower()` (per-character lowercasing). -/
def lowerStr (s : String) : String := ⟨s.data.map Char.toLower⟩

/-- The fixed log taxonomy: the six category keys of
`ConsoleDiagnostics.categories` in diagnostics.py. -/
inductive Kind where
  | error
  | warning
  | info
  | debug
  | network
  | other
  deriving DecidableEq, Repr

/-- The classification decision of `ConsoleDiagnostics._categorize_log`
(diagnostics.py lines 38-53): lowercase the log once, then run the ordered
if/elif chain, first match wins, else `other`. -/
def categorize (log : String) : Kind :=
  if containsStr (lowerStr log) "[error]" || containsStr (lowerStr log) "[page_error]" then
    Kind.error
  else if containsStr (lowerStr log) "[warning]" || containsStr (lowerStr log) "[warn]" then
    Kind.warning
  else if containsStr (lowerStr log) "[info]" || containsStr (lowerStr log) "[log]" then
    Kind.info
  else if containsStr (lowerStr log) "[debug]" then
    Kind.debug
  else if containsStr (lowerStr log) "network" || containsStr (lowerStr log) "fetch"
      || containsStr (lowerStr log) "xhr" then
    Kind.network
  else
    Kind.other

/-- State of a `ConsoleDiagnostics` object: the raw log list plus the six
category lists (the Python dict with fixed keys is a total function on Kind). -/
structure ConsoleDiagnostics where
  logs : List String
  categories : Kind → List String

/-- `ConsoleDiagnostics.__init__`: empty logs, all categories empty. -/
def emptyDiagnostics : ConsoleDiagnostics := ⟨[], fun _ => []⟩

/-- Append `log` at the end of category `k`, leaving the other lists unchanged
(the effect of `self.categories[key].append(log)`). -/
def appendAt (c : Kind → List String) (k : Kind) (log : String) : Kind → List String :=
  fun q => if q = k then c q ++ [log] else c q

/-- The category-table update performed by `_categorize_log`: the same ordered
if/elif chain as the source, each branch appending to one list. -/
def categorizeLogUpd (c : Kind → List String) (log : String) : Kind → List String :=
  if containsStr (lowerStr log) "[error]" || containsStr (lowerStr log) "[page_error]" then
    appendAt c Kind.error log
  else if containsStr (lowerStr log) "[warning]" || containsStr (lowerStr log) "[warn]" then
    appendAt c Kind.warning log
  else if containsStr (lowerStr log) "[info]" || containsStr (lowerStr log) "[log]" then
    appendAt c Kind.info log
  else if containsStr (lowerStr log) "[debug]" then
    appendAt c Kind.debug log
  else if containsStr (lowerStr log) "network" || containsStr (lowerStr log) "fetch"
      || containsStr (lowerStr log) "xhr" then
    appendAt c Kind.network log
  else
    appendAt c Kind.other log

/-- `ConsoleDiagnostics.add_log`: append to `logs` then categorize. -/
def addLog (d : ConsoleDiagnostics) (log : String) : ConsoleDiagnostics :=
  ⟨d.logs ++ [log], categorizeLogUpd d.categories log⟩

/-- `ConsoleDiagnostics.add_logs`: add each log in order. -/
def addLogs (d : ConsoleDiagnostics) (ls : List String) : ConsoleDiagnostics :=
  ls.foldl addLog d

/-- The six category keys in the source's dict insertion order. -/
def allKinds : List Kind :=
  [Kind.error, Kind.warning, Kind.info, Kind.debug, Kind.network, Kind.other]

/-- `ConsoleDiagnostics.get_summary`: per-category counts. -/
def diagSummary (d : ConsoleDiagnostics) : List (Kind × ℕ) :=
  allKinds.map (fun k => (k, (d.categories k).length))

/-- `ConsoleDiagnostics.has_errors`. -/
def hasErrors (d : ConsoleDiagnostics) : Bool :=
  decide (0 < (d.categories Kind.error).length)

/-- State of a `PerformanceMonitor`: metric name to recorded value sequence, as
an insertion-ordered association list (timestamps are dropped: no claim reads
them). -/
abbrev Monitor := List (String × List ℚ)

/-- `PerformanceMonitor.record_metric`: append to the named sequence; a
defaultdict creates a fresh entry (at the end, in insertion order) for an
unseen name. -/
def recordMetric : Monitor → String → ℚ → Monitor
  | [], name, v => [(name, [v])]
  | (n, vs) :: rest, name, v =>
      if n = name then (n, vs ++ [v]) :: rest
      else (n, vs) :: recordMetric rest name v

/-- `PerformanceMonitor.get_metric`: `self.metrics.get(name, [])`, a
non-mutating lookup with empty default. -/
def getMetric : Monitor → String → List ℚ
  | [], _ => []
  | (n, vs) :: rest, name => if n = name then vs else getMetric rest name

/-- Python's builtin `min` on a nonempty list (None on empty). -/
def listMin : List ℚ → Option ℚ
  | [] => none
  | v :: t => some (t.foldl min v)

/-- Python's builtin `max` on a nonempty list (None on empty). -/
def listMax : List ℚ → Option ℚ
  | [] => none
  | v :: t => some (t.foldl max v)

/-- `PerformanceMonitor.get_average`: `sum/len` when nonempty, else None. -/
def getAverage (m : Monitor) (name : String) : Option ℚ :=
  match getMetric m name with
  | [] => none
  | v :: t => some ((v :: t).sum / ((v :: t).length : ℚ))

/-- `PerformanceMonitor.get_min`. -/
def getMin (m : Monitor) (name : String) : Option ℚ :=
  listMin (getMetric m name)

/-- `PerformanceMonitor.get_max`. -/
def getMax (m : Monitor) (name : String) : Option ℚ :=
  listMax (getMetric m name)

/-- `PerformanceMonitor.get_latest`: `values[-1]` when nonempty, else None. -/
def getLatest (m : Monitor) (name : String) : Option ℚ :=
  (getMetric m name).getLast?

/-- The per-metric tuple built by `PerformanceMonitor.get_summary`. -/
structure MetricStats where
  count : ℕ
  average : ℚ
  min : ℚ
  max : ℚ
  latest : ℚ
  deriving DecidableEq, Repr

/-- The summary tuple of a nonempty value list (none when empty, mirroring the
`if values:` guard). -/
def statsOf : List ℚ → Option MetricStats
  | [] => none
  | v :: t =>
      some ⟨(v :: t).length, (v :: t).sum / (((v :: t).length : ℕ) : ℚ),
            t.foldl min v, t.foldl max v, t.getLastD v⟩

/-- `PerformanceMonitor.get_summary`: one entry per metric name whose value
list is nonempty, in insertion order. -/
def monitorSummary (m : Monitor) : List (String × MetricStats) :=
  m.filterMap (fun p => (statsOf p.2).map (fun s => (p.1, s)))

/-- Modelled from the spec: a NetworkEntry record (§3); the class that builds
these is not under src/, only its shape is specified. -/
structure NetworkEntry where
  url : String
  method : String
  status : Option ℕ
  durationMs : Option ℚ
  sizeBytes : Option ℕ
  failed : Bool
  errorText : Option String
  deriving DecidableEq, Repr

/-- Modelled from the spec: the DiagnosticReport aggregate (§3); the
aggregator that builds it is not under src/. -/
structure DiagnosticReport where
  target : String
  passed : Bool
  consoleLogs : List String
  networkEntries : List NetworkEntry
  errors : List String
  warnings : List String
  securityIssues : List String

/-- Modelled from the spec: the Diagnostic Aggregator's `buildReport` (§4.4),
not under src/.  Derives `errors`/`warnings` from the classifier's kinds,
merges supplied security issues verbatim, and computes
`passed = (errors.count == 0) AND (securityIssues.count == 0)`. -/
def buildReport (target : String) (logs : List String) (net : List NetworkEntry)
    (sec : List String) : DiagnosticReport :=
  ⟨target,
   (logs.filter (fun l => categorize l = Kind.error)).isEmpty && sec.isEmpty,
   logs, net,
   logs.filter (fun l => categorize l = Kind.error),
   logs.filter (fun l => categorize l = Kind.warning),
   sec⟩

/-- Modelled from the spec: the session store's performance-history retention
window of 50 entries (§3 Invariants, §6), not under src/. -/
def historyLimit : ℕ := 50

/-- Modelled from the spec: appending one datapoint to the persisted
performance history, evicting the oldest entries (FIFO) when the 50-entry cap
is exceeded (§6); not under src/. -/
def recordHistory {α : Type} (h : List α) (s : α) : List α :=
  if historyLimit < (h ++ [s]).length then
    (h ++ [s]).drop ((h ++ [s]).length - historyLimit)
  else h ++ [s]

/-- Recording a whole run of datapoints into an initially empty history. -/
def runHistory {α : Type} (xs : List α) : List α :=
  xs.foldl recordHistory []

/-- The three trend labels of the Trend Analyzer. -/
inductive Trend where
  | improving
  | degrading
  | stable
  deriving DecidableEq, Repr

/-- Modelled from the spec: arithmetic mean of the most recent 5 points
(§4.5); the Trend Analyzer is not under src/. -/
def recentMean (vals : List ℚ) : ℚ :=
  (vals.drop (vals.length - 5)).sum / 5

/-- Modelled from the spec: arithmetic mean of the 5 points before the recent
window (§4.5); not under src/. -/
def olderMean (vals : List ℚ) : ℚ :=
  ((vals.take (vals.length - 5)).drop (vals.length - 10)).sum / 5

/-- Modelled from the spec: the Trend Analyzer's per-metric verdict (§4.5):
none below 10 points, else compare the two window means against the fixed
0.9 and 1.1 multipliers; not under src/. -/
def trendOf (vals : List ℚ) : Option Trend :=
  if vals.length < 10 then none
  else if recentMean vals < 9 / 10 * olderMean vals then some Trend.improving
  else if 11 / 10 * olderMean vals < recentMean vals then some Trend.degrading
  else some Trend.stable

/-- Modelled from the spec: `trends(history)` maps each metric with a verdict
to its label, dropping metrics without one (§4.5); not under src/. -/
def trends (hist : List (String × List ℚ)) : List (String × Trend) :=
  hist.filterMap (fun p => (trendOf p.2).map (fun t => (p.1, t)))

/-! ## Helper lemmas -/

theorem appendAt_apply (c : Kind → List String) (K : Kind) (log : String) (k : Kind) :
    appendAt c K log k = c k ++ (if K = k then [log] else []) := by
  unfold appendAt
  rcases eq_or_ne k K with h | h
  · subst h
    simp
  · simp [h, Ne.symm h]

theorem categorizeLogUpd_eq (c : Kind → List String) (log : String) :
    categorizeLogUpd c log = appendAt c (categorize log) log := by
  unfold categorizeLogUpd categorize
  split_ifs <;> rfl

theorem addLogs_cons (d : ConsoleDiagnostics) (x : String) (xs : List String) :
    addLogs d (x :: xs) = addLogs (addLog d x) xs := rfl

theorem addLogs_logs (xs : List String) (d : ConsoleDiagnostics) :
    (addLogs d xs).logs = d.logs ++ xs := by
  induction xs generalizing d with
  | nil => simp [addLogs]
  | cons x xs ih =>
    rw [addLogs_cons, ih]
    simp [addLog]

theorem addLogs_categories (xs : List String) (d : ConsoleDiagnostics) (k : Kind) :
    (addLogs d xs).categories k
      = d.categories k ++ xs.filter (fun x => categorize x = k) := by
  induction xs generalizing d with
  | nil => simp [addLogs]
  | cons x xs ih =>
    rw [addLogs_cons, ih]
    show (categorizeLogUpd d.categories x) k ++ _ = _
    rw [categorizeLogUpd_eq, appendAt_apply, List.filter_cons]
    by_cases hx : categorize x = k
    · simp [hx]
    · simp [hx]

theorem getMetric_record_ne (m : Monitor) (n : String) (v : ℚ) (q : String)
    (h : q ≠ n) : getMetric (recordMetric m n v) q = getMetric m q := by
  induction m with
  | nil =>
    simp only [recordMetric, getMetric]
    rw [if_neg (fun hh => h hh.symm)]
  | cons p rest ih =>
    obtain ⟨pn, pvs⟩ := p
    simp only [recordMetric]
    by_cases hp : pn = n
    · subst hp
      simp only [if_pos rfl, getMetric]
      rw [if_neg (fun hh => h hh.symm), if_neg (fun hh => h hh.symm)]
    · simp only [if_neg hp, getMetric]
      by_cases hq : pn = q
      · simp [hq]
      · simp [hq, ih]

theorem sum_filter_lengths (xs : List String) :
    (allKinds.map (fun k => (xs.filter (fun x => categorize x = k)).length)).sum
      = xs.length := by
  induction xs with
  | nil => simp [allKinds]
  | cons x xs ih =>
    simp only [allKinds, List.map_cons, List.map_nil, List.sum_cons,
      List.sum_nil] at ih ⊢
    cases hx : categorize x <;>
      simp only [List.filter_cons, hx, decide_eq_true_eq, List.length_cons,
        if_true, if_false, reduceCtorEq, reduceIte] <;>
      omega

theorem foldl_min_le (t : List ℚ) (v : ℚ) :
    t.foldl min v ≤ v ∧ ∀ x ∈ t, t.foldl min v ≤ x := by
  induction t generalizing v with
  | nil => simp
  | cons a t ih =>
    simp only [List.foldl_cons]
    obtain ⟨h1, h2⟩ := ih (min v a)
    refine ⟨h1.trans (min_le_left _ _), ?_⟩
    intro x hx
    rcases List.mem_cons.mp hx with rfl | hx
    · exact h1.trans (min_le_right _ _)
    · exact h2 x hx

theorem foldl_min_mem (t : List ℚ) (v : ℚ) : t.foldl min v ∈ v :: t := by
  induction t generalizing v with
  | nil => simp
  | cons a t ih =>
    simp only [List.foldl_cons]
    rcases List.mem_cons.mp (ih (min v a)) with h | h
    · rcases min_choice v a with hc | hc
      · rw [h, hc]; exact List.mem_cons_self _ _
      · rw [h, hc]; exact List.mem_cons_of_mem _ (List.mem_cons_self _ _)
    · exact List.mem_cons_of_mem _ (List.mem_cons_of_mem _ h)

theorem foldl_max_le (t : List ℚ) (v : ℚ) :
    v ≤ t.foldl max v ∧ ∀ x ∈ t, x ≤ t.foldl max v := by
  induction t generalizing v with
  | nil => simp
  | cons a t ih =>
    simp only [List.foldl_cons]
    obtain ⟨h1, h2⟩ := ih (max v a)
    refine ⟨(le_max_left _ _).trans h1, ?_⟩
    intro x hx
    rcases List.mem_cons.mp hx with rfl | hx
    · exact (le_max_right _ _).trans h1
    · exact h2 x hx

theorem foldl_max_mem (t : List ℚ) (v : ℚ) : t.foldl max v ∈ v :: t := by
  induction t generalizing v with
  | nil => simp
  | cons a t ih =>
    simp only [List.foldl_cons]
    rcases List.mem_cons.mp (ih (max v a)) with h | h
    · rcases max_choice v a with hc | hc
      · rw [h, hc]; exact List.mem_cons_self _ _
      · rw [h, hc]; exact List.mem_cons_of_mem _ (List.mem_cons_self _ _)
    · exact List.mem_cons_of_mem _ (List.mem_cons_of_mem _ h)

theorem runHistory_eq {α : Type} (xs : List α) :
    runHistory xs = xs.drop (xs.length - historyLimit) := by
  unfold runHistory
  induction xs using List.reverseRecOn with
  | nil => simp
  | append_singleton xs x ih =>
    rw [List.foldl_append, List.foldl_cons, List.foldl_nil, ih]
    unfold recordHistory
    have h50 : historyLimit = 50 := rfl
    have hlen : (xs.drop (xs.length - historyLimit)).length
        = xs.length - (xs.length - historyLimit) := List.length_drop _ _
    by_cases hc : xs.length < historyLimit
    · rw [if_neg]
      · have h0 : xs.length - historyLimit = 0 := by omega
        have h1 : (xs ++ [x]).length - historyLimit = 0 := by
          simp only [List.length_append, List.length_singleton]
          omega
        rw [h0, h1, List.drop_zero, List.drop_zero]
      · simp only [List.length_append, List.length_singleton, not_lt]
        omega
    · have hge : historyLimit ≤ xs.length := not_lt.mp hc
      have hdlen : (xs.drop (xs.length - historyLimit)).length = historyLimit := by
        omega
      rw [if_pos]
      · have h1 : (xs.drop (xs.length - historyLimit) ++ [x]).length - historyLimit
            = 1 := by
          simp only [List.length_append, List.length_singleton, hdlen]
          omega
        rw [h1]
        rw [List.drop_append_of_le_length (by omega :
          1 ≤ (xs.drop (xs.length - historyLimit)).length)]
        rw [List.drop_drop]
        rw [List.drop_append_of_le_length (by
          simp only [List.length_append, List.length_singleton]
          omega : (xs ++ [x]).length - historyLimit ≤ xs.length)]
        have hij : xs.length - historyLimit + 1 = (xs ++ [x]).length - historyLimit := by
          simp only [List.length_append, List.length_singleton]
          omega
        rw [hij]
      · simp only [List.length_append, List.length_singleton, hdlen]
        omega

theorem getLast?_cons_getLastD (v : ℚ) (t : List ℚ) :
    (v :: t).getLast? = some (t.getLastD v) := by
  induction t generalizing v with
  | nil => rfl
  | cons a t ih => rw [List.getLast?_cons_cons, ih, List.getLastD_cons]

theorem statsOf_spec (vs : List ℚ) (s : MetricStats) (h : statsOf vs = some s) :
    vs ≠ [] ∧ s.count = vs.length ∧ s.average = vs.sum / (vs.length : ℚ) ∧
    s.min ∈ vs ∧ (∀ x ∈ vs, s.min ≤ x) ∧
    s.max ∈ vs ∧ (∀ x ∈ vs, x ≤ s.max) ∧
    vs.getLast? = some s.latest := by
  cases vs with
  | nil => simp [statsOf] at h
  | cons v t =>
    simp only [statsOf, Option.some.injEq] at h
    subst h
    refine ⟨by simp, rfl, by push_cast; rfl, foldl_min_mem t v, ?_,
      foldl_max_mem t v, ?_, ?_⟩
    · intro x hx
      rcases List.mem_cons.mp hx with rfl | hx
      · exact (foldl_min_le t x).1
      · exact (foldl_min_le t v).2 x hx
    · intro x hx
      rcases List.mem_cons.mp hx with rfl | hx
      · exact (foldl_max_le t x).1
      · exact (foldl_max_le t v).2 x hx
    · exact getLast?_cons_getLastD v t

theorem summary_keys (m : Monitor) :
    (monitorSummary m).map Prod.fst
      = (m.filter (fun p => !p.2.isEmpty)).map Prod.fst := by
  induction m with
  | nil => rfl
  | cons p rest ih =>
    obtain ⟨pn, vs⟩ := p
    cases vs with
    | nil => simpa [monitorSummary, statsOf, List.filter_cons] using ih
    | cons v t =>
      simp only [monitorSummary, List.filterMap_cons, statsOf, Option.map_some',
        List.filter_cons] at ih ⊢
      simpa using ih

theorem summary_mem (m : Monitor) (n : String) (s : MetricStats)
    (h : (n, s) ∈ monitorSummary m) :
    ∃ vs, (n, vs) ∈ m ∧ statsOf vs = some s := by
  induction m with
  | nil => simp [monitorSummary] at h
  | cons p rest ih =>
    obtain ⟨pn, pvs⟩ := p
    simp only [monitorSummary, List.filterMap_cons] at h
    cases hso : statsOf pvs with
    | none =>
      rw [hso] at h
      simp only [Option.map_none'] at h
      obtain ⟨vs, hmem, hst⟩ := ih h
      exact ⟨vs, List.mem_cons_of_mem _ hmem, hst⟩
    | some st =>
      rw [hso] at h
      simp only [Option.map_some'] at h
      rcases List.mem_cons.mp h with heq | h
      · rcases Prod.mk.injEq _ _ _ _ ▸ heq with ⟨hn, hs⟩
        exact ⟨pvs, by rw [← hn]; exact List.mem_cons_self _ _, by rw [hso, hs]⟩
      · obtain ⟨vs, hmem, hst⟩ := ih h
        exact ⟨vs, List.mem_cons_of_mem _ hmem, hst⟩

/-! ## Claim theorems -/

/-- C2: classification rules are applied in the source's fixed order, first
match wins, and explicit bracketed tags beat keyword fallbacks: any log whose
lowercasing contains the explicit error tag together with the word "network"
classifies as `error`, not `network`. -/
theorem errorTag_beats_network (x : String)
    (he : containsStr (lowerStr x) "[error]" = true)
    (hn : containsStr (lowerStr x) "network" = true) :
    categorize x = Kind.error ∧ categorize x ≠ Kind.network := by
  unfold categorize
  simp [he]

theorem errorTag_beats_network_check :
    containsStr (lowerStr "[ERROR] Network request failed") "[error]" = true ∧
    containsStr (lowerStr "[ERROR] Network request failed") "network" = true ∧
    (categorize "[ERROR] Network request failed" = Kind.error ∧
      categorize "[ERROR] Network request failed" ≠ Kind.network) :=
  ⟨by decide, by decide, errorTag_beats_network _ (by decide) (by decide)⟩

/-- C6: log classification is a pure, stateless function of the log text: the
category-table update appends the log to exactly the category `categorize`
computes from the text, whatever the previously accumulated state is, so
reclassifying the same text in any state always yields the same kind. -/
theorem classification_stateless (c : Kind → List String) (log : String) (k : Kind) :
    categorizeLogUpd c log k = c k ++ (if categorize log = k then [log] else []) := by
  rw [categorizeLogUpd_eq, appendAt_apply]

/-- C7: classification is total: when none of the tag or keyword rules of the
if/elif chain matches, the classifier assigns kind `other` (and being a total
Lean function, it cannot fail on any input). -/
theorem unmatched_is_other (x : String)
    (h1 : (containsStr (lowerStr x) "[error]"
        || containsStr (lowerStr x) "[page_error]") = false)
    (h2 : (containsStr (lowerStr x) "[warning]"
        || containsStr (lowerStr x) "[warn]") = false)
    (h3 : (containsStr (lowerStr x) "[info]"
        || containsStr (lowerStr x) "[log]") = false)
    (h4 : containsStr (lowerStr x) "[debug]" = false)
    (h5 : (containsStr (lowerStr x) "network" || containsStr (lowerStr x) "fetch"
        || containsStr (lowerStr x) "xhr") = false) :
    categorize x = Kind.other := by
  unfold categorize
  simp only [h1, h2, h3, h4, h5, Bool.false_eq_true, if_false]

theorem unmatched_is_other_check :
    (containsStr (lowerStr "hello world") "[error]"
        || containsStr (lowerStr "hello world") "[page_error]") = false ∧
    (containsStr (lowerStr "hello world") "[warning]"
        || containsStr (lowerStr "hello world") "[warn]") = false ∧
    (containsStr (lowerStr "hello world") "[info]"
        || containsStr (lowerStr "hello world") "[log]") = false ∧
    containsStr (lowerStr "hello world") "[debug]" = false ∧
    (containsStr (lowerStr "hello world") "network"
        || containsStr (lowerStr "hello world") "fetch"
        || containsStr (lowerStr "hello world") "xhr") = false ∧
    categorize "hello world" = Kind.other :=
  ⟨by decide, by decide, by decide, by decide, by decide,
    unmatched_is_other _ (by decide) (by decide) (by decide) (by decide) (by decide)⟩

/-- C5: on a metric name with zero recorded samples, average, min, max and
latest each return the explicit no-data result `none`, never a numeric
default. -/
theorem empty_metric_queries_none (m : Monitor) (n : String)
    (h : getMetric m n = []) :
    getAverage m n = none ∧ getMin m n = none ∧ getMax m n = none ∧
      getLatest m n = none := by
  unfold getAverage getMin getMax getLatest
  rw [h]
  simp [listMin, listMax]

theorem empty_metric_queries_none_check :
    getMetric [(("load" : String), ([3] : List ℚ))] "paint" = [] ∧
    (getAverage [(("load" : String), ([3] : List ℚ))] "paint" = none ∧
      getMin [(("load" : String), ([3] : List ℚ))] "paint" = none ∧
      getMax [(("load" : String), ([3] : List ℚ))] "paint" = none ∧
      getLatest [(("load" : String), ([3] : List ℚ))] "paint" = none) :=
  ⟨by decide, empty_metric_queries_none _ _ (by decide)⟩

/-- C10: the recorder's queries are non-mutating reads (they are pure
functions of the state, and a lookup of an unrecorded name yields the empty
default without inserting an entry), and recording under one metric name
leaves every other metric's samples — and all queries of them — unchanged. -/
theorem record_frame (m : Monitor) (n : String) (v : ℚ) (q : String)
    (h : q ≠ n) :
    getMetric (recordMetric m n v) q = getMetric m q ∧
    getAverage (recordMetric m n v) q = getAverage m q ∧
    getMin (recordMetric m n v) q = getMin m q ∧
    getMax (recordMetric m n v) q = getMax m q ∧
    getLatest (recordMetric m n v) q = getLatest m q := by
  have key := getMetric_record_ne m n v q h
  refine ⟨key, ?_, ?_, ?_, ?_⟩ <;>
    simp only [getAverage, getMin, getMax, getLatest, key]

theorem record_frame_check :
    ("dom" : String) ≠ "load" ∧
    (getMetric (recordMetric [(("load" : String), ([1] : List ℚ)),
        (("dom" : String), ([2] : List ℚ))] "load" 5) "dom"
      = getMetric [(("load" : String), ([1] : List ℚ)),
        (("dom" : String), ([2] : List ℚ))] "dom" ∧
    getAverage (recordMetric [(("load" : String), ([1] : List ℚ)),
        (("dom" : String), ([2] : List ℚ))] "load" 5) "dom"
      = getAverage [(("load" : String), ([1] : List ℚ)),
        (("dom" : String), ([2] : List ℚ))] "dom" ∧
    getMin (recordMetric [(("load" : String), ([1] : List ℚ)),
        (("dom" : String), ([2] : List ℚ))] "load" 5) "dom"
      = getMin [(("load" : String), ([1] : List ℚ)),
        (("dom" : String), ([2] : List ℚ))] "dom" ∧
    getMax (recordMetric [(("load" : String), ([1] : List ℚ)),
        (("dom" : String), ([2] : List ℚ))] "load" 5) "dom"
      = getMax [(("load" : String), ([1] : List ℚ)),
        (("dom" : String), ([2] : List ℚ))] "dom" ∧
    getLatest (recordMetric [(("load" : String), ([1] : List ℚ)),
        (("dom" : String), ([2] : List ℚ))] "load" 5) "dom"
      = getLatest [(("load" : String), ([1] : List ℚ)),
        (("dom" : String), ([2] : List ℚ))] "dom") :=
  ⟨by decide, record_frame _ _ _ _ (by decide)⟩

/-- C9: after any sequence of added logs, the raw log list is exactly the
added sequence, each category list is the insertion-ordered sublist of the
logs classified to it (so every added log lands in exactly one category), and
the per-category counts of get_summary sum to the total number of logs. -/
theorem addLogs_partition (xs : List String) (k : Kind) :
    (addLogs emptyDiagnostics xs).logs = xs ∧
    (addLogs emptyDiagnostics xs).categories k
      = xs.filter (fun x => categorize x = k) ∧
    ((diagSummary (addLogs emptyDiagnostics xs)).map Prod.snd).sum = xs.length := by
  refine ⟨?_, ?_, ?_⟩
  · rw [addLogs_logs]
    rfl
  · rw [addLogs_categories]
    rfl
  · unfold diagSummary
    rw [List.map_map]
    have hc : ∀ q : Kind, (addLogs emptyDiagnostics xs).categories q
        = xs.filter (fun x => categorize x = q) := by
      intro q
      rw [addLogs_categories]
      rfl
    calc (allKinds.map (Prod.snd ∘ fun q => (q, ((addLogs emptyDiagnostics xs).categories q).length))).sum
        = (allKinds.map (fun q => (xs.filter (fun x => categorize x = q)).length)).sum := by
          simp only [Function.comp_def, hc]
      _ = xs.length := sum_filter_lengths xs

/-- C8: get_summary has an entry for exactly the metric names with at least
one sample (same names, same order), and every entry's tuple is correct:
count is the sample count, average is the sum divided by the count, min and
max are the least and greatest samples, latest is the most recent sample. -/
theorem summary_correct (m : Monitor) (n : String) (s : MetricStats)
    (h : (n, s) ∈ monitorSummary m) :
    (monitorSummary m).map Prod.fst
      = (m.filter (fun p => !p.2.isEmpty)).map Prod.fst ∧
    ∃ vs, (n, vs) ∈ m ∧ vs ≠ [] ∧ s.count = vs.length ∧
      s.average = vs.sum / (vs.length : ℚ) ∧
      s.min ∈ vs ∧ (∀ x ∈ vs, s.min ≤ x) ∧
      s.max ∈ vs ∧ (∀ x ∈ vs, x ≤ s.max) ∧
      vs.getLast? = some s.latest := by
  refine ⟨summary_keys m, ?_⟩
  obtain ⟨vs, hmem, hst⟩ := summary_mem m n s h
  exact ⟨vs, hmem, statsOf_spec vs s hst⟩

theorem summary_correct_check :
    (("load", (⟨3, 2, 1, 3, 2⟩ : MetricStats))
        ∈ monitorSummary [(("load" : String), ([3, 1, 2] : List ℚ))]) ∧
    ((monitorSummary [(("load" : String), ([3, 1, 2] : List ℚ))]).map Prod.fst
      = (([(("load" : String), ([3, 1, 2] : List ℚ))].filter
          (fun p => !p.2.isEmpty))).map Prod.fst ∧
    ∃ vs, (("load" : String), vs) ∈ [(("load" : String), ([3, 1, 2] : List ℚ))] ∧
      vs ≠ [] ∧ (3 : ℕ) = vs.length ∧ (2 : ℚ) = vs.sum / (vs.length : ℚ) ∧
      (1 : ℚ) ∈ vs ∧ (∀ x ∈ vs, (1 : ℚ) ≤ x) ∧
      (3 : ℚ) ∈ vs ∧ (∀ x ∈ vs, x ≤ (3 : ℚ)) ∧
      vs.getLast? = some (2 : ℚ)) :=
  ⟨by simp [monitorSummary, statsOf, List.getLastD]; norm_num [min_def, max_def],
    summary_correct [(("load" : String), ([3, 1, 2] : List ℚ))] "load"
      (⟨3, 2, 1, 3, 2⟩ : MetricStats)
      (by simp [monitorSummary, statsOf, List.getLastD]; norm_num [min_def, max_def])⟩

/-- C1: a report's pass verdict is true iff both the derived error list and
the security-issue list are empty; the verdict does not depend on the network
entries (so network failures cannot change it) and appending a warning-kind
log leaves it unchanged. -/
theorem verdict_iff_clean (t : String) (logs : List String)
    (net net2 : List NetworkEntry) (sec : List String) (w : String)
    (hw : categorize w = Kind.warning) :
    ((buildReport t logs net sec).passed = true ↔
      ((buildReport t logs net sec).errors = [] ∧
        (buildReport t logs net sec).securityIssues = [])) ∧
    (buildReport t logs net2 sec).passed = (buildReport t logs net sec).passed ∧
    (buildReport t (logs ++ [w]) net sec).passed
      = (buildReport t logs net sec).passed := by
  refine ⟨?_, rfl, ?_⟩
  · simp [buildReport, List.isEmpty_iff]
  · simp [buildReport, List.filter_append, List.filter_cons, hw]

theorem verdict_iff_clean_check :
    categorize "[WARNING] deprecated API" = Kind.warning ∧
    (((buildReport "target" ["[ERROR] boom"] [] ["mixed content"]).passed = true ↔
      ((buildReport "target" ["[ERROR] boom"] [] ["mixed content"]).errors = [] ∧
        (buildReport "target" ["[ERROR] boom"] [] ["mixed content"]).securityIssues = [])) ∧
    (buildReport "target" ["[ERROR] boom"]
        [⟨"u", "GET", none, none, none, true, some "timeout"⟩]
        ["mixed content"]).passed
      = (buildReport "target" ["[ERROR] boom"] [] ["mixed content"]).passed ∧
    (buildReport "target" (["[ERROR] boom"] ++ ["[WARNING] deprecated API"]) []
        ["mixed content"]).passed
      = (buildReport "target" ["[ERROR] boom"] [] ["mixed content"]).passed) :=
  ⟨by decide, verdict_iff_clean _ _ _ _ _ _ (by decide)⟩

/-- C3: the persisted metric history never exceeds the 50-entry retention
window, and recording 60 datapoints into an empty history leaves exactly the
most recent 50, the oldest 10 evicted in insertion (FIFO) order. -/
theorem history_capped {α : Type} (xs ys : List α) (h : xs.length = 60) :
    runHistory xs = xs.drop 10 ∧ (runHistory ys).length ≤ historyLimit := by
  constructor
  · rw [runHistory_eq, h]
    rfl
  · rw [runHistory_eq, List.length_drop]
    have h50 : historyLimit = 50 := rfl
    omega

theorem history_capped_check :
    (List.range 60).length = 60 ∧
    (runHistory (List.range 60) = (List.range 60).drop 10 ∧
      (runHistory (List.range 77)).length ≤ historyLimit) :=
  ⟨by simp, history_capped _ _ (by simp)⟩

/-- C4: with fewer than 10 points the trend analysis yields no verdict and an
empty mapping (never an error); with at least 10 points the metric is
improving iff the recent-window mean is below 0.9 times the older-window
mean, degrading iff it is above 1.1 times it, and stable otherwise. -/
theorem trend_classification (vals lo : List ℚ) (n : String)
    (hlo : lo.length < 10) (hge : 10 ≤ vals.length)
    (hom : 0 ≤ olderMean vals) :
    trendOf lo = none ∧ trends [(n, lo)] = [] ∧
    (trendOf vals = some Trend.improving ↔
      recentMean vals < 9 / 10 * olderMean vals) ∧
    (trendOf vals = some Trend.degrading ↔
      11 / 10 * olderMean vals < recentMean vals) ∧
    (trendOf vals = some Trend.stable ↔
      (¬ recentMean vals < 9 / 10 * olderMean vals ∧
        ¬ 11 / 10 * olderMean vals < recentMean vals)) := by
  have hnone : trendOf lo = none := by
    unfold trendOf
    rw [if_pos hlo]
  refine ⟨hnone, ?_, ?_, ?_, ?_⟩
  · simp [trends, hnone]
  · unfold trendOf
    rw [if_neg (by omega)]
    split_ifs with h1 h2 <;> simp_all
  · unfold trendOf
    rw [if_neg (by omega)]
    split_ifs with h1 h2
    · refine iff_of_false (by simp) ?_
      intro hlt
      linarith
    · simp [h2]
    · simp [h2]
  · unfold trendOf
    rw [if_neg (by omega)]
    split_ifs with h1 h2 <;> simp_all

theorem trend_classification_check :
    ([(1 : ℚ), 2, 3].length < 10 ∧
      (10 : ℕ) ≤ ([100, 100, 100, 100, 100, 50, 50, 50, 50, 50] : List ℚ).length ∧
      (0 : ℚ) ≤ olderMean ([100, 100, 100, 100, 100, 50, 50, 50, 50, 50] : List ℚ)) ∧
    (trendOf [(1 : ℚ), 2, 3] = none ∧
      trends [(("load" : String), [(1 : ℚ), 2, 3])] = [] ∧
      (trendOf ([100, 100, 100, 100, 100, 50, 50, 50, 50, 50] : List ℚ)
          = some Trend.improving ↔
        recentMean ([100, 100, 100, 100, 100, 50, 50, 50, 50, 50] : List ℚ)
          < 9 / 10 * olderMean ([100, 100, 100, 100, 100, 50, 50, 50, 50, 50] : List ℚ)) ∧
      (trendOf ([100, 100, 100, 100, 100, 50, 50, 50, 50, 50] : List ℚ)
          = some Trend.degrading ↔
        11 / 10 * olderMean ([100, 100, 100, 100, 100, 50, 50, 50, 50, 50] : List ℚ)
          < recentMean ([100, 100, 100, 100, 100, 50, 50, 50, 50, 50] : List ℚ)) ∧
      (trendOf ([100, 100, 100, 100, 100, 50, 50, 50, 50, 50] : List ℚ)
          = some Trend.stable ↔
        (¬ recentMean ([100, 100, 100, 100, 100, 50, 50, 50, 50, 50] : List ℚ)
            < 9 / 10 * olderMean ([100, 100, 100, 100, 100, 50, 50, 50, 50, 50] : List ℚ) ∧
          ¬ 11 / 10 * olderMean ([100, 100, 100, 100, 100, 50, 50, 50, 50, 50] : List ℚ)
            < recentMean ([100, 100, 100, 100, 100, 50, 50, 50, 50, 50] : List ℚ)))) :=
  ⟨⟨by decide, by decide, by norm_num [olderMean]⟩,
    trend_classification [100, 100, 100, 100, 100, 50, 50, 50, 50, 50] [1, 2, 3]
      "load" (by decide) (by decide) (by norm_num [olderMean])⟩

end AyoDiag
